import Mathlib

/-!
Verification development for the `scatter` repository's ingestion and
deduplication core (`src/backend/fetch_and_store_emails.py` and the
maintenance scripts under `src/temp/`).

The Python code is shallowly embedded: strings are `String`/`List Char`,
Python floats are modelled as `ℚ`, database tables are Lean lists of rows,
and Python's `try/insert/except duplicate` pattern is modelled as an insert
that is skipped when the unique key is already present (the source catches
the duplicate-key error and continues).
-/

namespace Scatter

/-! ## Whitespace normalization (`" ".join(s.split())`)

`str.split()` with no argument splits on runs of whitespace and drops empty
fields.  We model the ASCII whitespace characters that Python treats as
separators (Python additionally splits on some further Unicode whitespace
code points; the repository's claims only involve ASCII whitespace). -/

def isPySpace (c : Char) : Bool :=
  c = ' ' || c = '\t' || c = '\n' || c = '\x0d' || c = '\x0b' || c = '\x0c'

/-- Model of `str.split()`: the list of maximal runs of non-whitespace characters. -/
def pyWords : List Char → List (List Char)
  | [] => []
  | c :: cs =>
    if isPySpace c then pyWords cs
    else
      match cs, pyWords cs with
      | [], _ => [[c]]
      | d :: _, rest =>
        if isPySpace d then [c] :: rest
        else
          match rest with
          | [] => [[c]]
          | w :: ws => (c :: w) :: ws

/-- Model of `" ".join(s.split())`. -/
def normalizeWs (l : List Char) : List Char :=
  List.intercalate [' '] (pyWords l)

/-! ## `difflib.SequenceMatcher` (with `isjunk = None`)

Faithful embedding of CPython's `SequenceMatcher` on the two normalized
strings.  With `isjunk = None` the junk set `bjunk` is empty; the autojunk
heuristic removes "popular" elements (count > len(b)//100 + 1) from the
position table `b2j` when `len(b) >= 200`.  `ratio()` is
`2*M/T` where `M` is the total size of the matching blocks and
`T = len(a) + len(b)`; `_calculate_ratio` returns `1.0` when `T = 0`. -/

/-- Element access `l[i]`; all reads are in range in the modelled calls. -/
def chAt (l : List Char) (i : Nat) : Char := l.getD i ' '

/-- autojunk: an element of `b` is "popular" when `len(b) >= 200` and it
occurs more than `len(b) // 100 + 1` times. -/
def bPopular (b : List Char) (c : Char) : Bool :=
  decide (200 ≤ b.length) && decide (b.length / 100 + 1 < b.count c)

/-- The position table entry `b2j[c]`: ascending positions of `c` in `b`, with popular elements
removed (their entry is absent, read as the empty list). -/
def b2j (b : List Char) (c : Char) : List Nat :=
  if bPopular b c then []
  else (List.range b.length).filter (fun j => chAt b j = c)

structure FlmBest where
  i : Nat
  j : Nat
  size : Nat
deriving DecidableEq

/-- Lookup `j2len.get(j-1, 0)`: the key `-1` (Python) is never present. -/
def jqGet (m : Nat → Nat) (j : Nat) : Nat :=
  if j = 0 then 0 else m (j - 1)

/-- The inner loop of `find_longest_match` over the positions `b2j[a[i]]`:
`continue` on `j < blo`, `break` on `j >= bhi`, otherwise record
`k = j2len.get(j-1,0)+1` in `newj2len[j]` and update the best block when
`k > bestsize`. -/
def flmInner (j2len : Nat → Nat) (blo bhi i : Nat) :
    List Nat → (Nat → Nat) × FlmBest → (Nat → Nat) × FlmBest
  | [], st => st
  | j :: js, (newj2len, best) =>
    if j < blo then flmInner j2len blo bhi i js (newj2len, best)
    else if bhi ≤ j then (newj2len, best)
    else
      let k := jqGet j2len j + 1
      let newj2len2 := fun x => if x = j then k else newj2len x
      let best2 := if best.size < k then FlmBest.mk (i + 1 - k) (j + 1 - k) k else best
      flmInner j2len blo bhi i js (newj2len2, best2)

/-- One iteration of the row loop `for i in range(alo, ahi)`: a fresh
`newj2len = {}` replaces `j2len` after the inner scan. -/
def flmRow (a b : List Char) (blo bhi : Nat)
    (st : (Nat → Nat) × FlmBest) (i : Nat) : (Nat → Nat) × FlmBest :=
  flmInner st.1 blo bhi i (b2j b (chAt a i)) (fun _ => 0, st.2)

/-- The main loop of `find_longest_match`, starting from
`besti, bestj, bestsize = alo, blo, 0`. -/
def flmLoop (a b : List Char) (alo ahi blo bhi : Nat) : (Nat → Nat) × FlmBest :=
  (List.range' alo (ahi - alo)).foldl (flmRow a b blo bhi) (fun _ => 0, FlmBest.mk alo blo 0)

/-- The left extension loop
`while besti > alo and bestj > blo and a[besti-1] == b[bestj-1]` (with the
empty junk set, the `not isbjunk` test is always true).  Structured on
`besti`, which the loop decrements. -/
def extendLeft (a b : List Char) (alo blo : Nat) :
    Nat → Nat → Nat → Nat × Nat × Nat
  | 0, bestj, bestsize => (0, bestj, bestsize)
  | besti + 1, bestj, bestsize =>
    if alo < besti + 1 ∧ blo < bestj ∧ chAt a besti = chAt b (bestj - 1) then
      extendLeft a b alo blo besti (bestj - 1) (bestsize + 1)
    else (besti + 1, bestj, bestsize)

/-- The right extension loop
`while besti+bestsize < ahi and bestj+bestsize < bhi and
a[besti+bestsize] == b[bestj+bestsize]`, run on fuel
`ahi - (besti + bestsize)`: when the fuel is 0 the loop condition is false,
so the fuelled version coincides with the while loop. -/
def extendRightGo (a b : List Char) (besti bestj ahi bhi : Nat) :
    Nat → Nat → Nat
  | 0, bestsize => bestsize
  | fuel + 1, bestsize =>
    if besti + bestsize < ahi ∧ bestj + bestsize < bhi ∧
        chAt a (besti + bestsize) = chAt b (bestj + bestsize) then
      extendRightGo a b besti bestj ahi bhi fuel (bestsize + 1)
    else bestsize

/-- Model of `find_longest_match(alo, ahi, blo, bhi)`: the main loop followed by the
two (non-junk) extension loops; the junk extension loops never fire because
`bjunk` is empty when `isjunk` is `None`. -/
def findLongestMatch (a b : List Char) (alo ahi blo bhi : Nat) : FlmBest :=
  let core := (flmLoop a b alo ahi blo bhi).2
  let left := extendLeft a b alo blo core.i core.j core.size
  let size2 := extendRightGo a b left.1 left.2.1 ahi bhi
    (ahi - (left.1 + left.2.2)) left.2.2
  FlmBest.mk left.1 left.2.1 size2

/-- Total size of the matching blocks of `get_matching_blocks`, i.e. the
`M` of `ratio()`.  The queue traversal is modelled as direct recursion on
the two sub-regions of each found block (the traversal order does not
affect the sum of the block sizes).  Fuel: every recursive call shrinks
`(ahi - alo) + (bhi - blo)` by at least 2 (a block of size ≥ 1 is removed
from both sides), so fuel `(ahi - alo) + (bhi - blo) + 1` never runs out. -/
def matchingTotalF (a b : List Char) :
    Nat → Nat → Nat → Nat → Nat → Nat
  | 0, _, _, _, _ => 0
  | fuel + 1, alo, ahi, blo, bhi =>
    let m := findLongestMatch a b alo ahi blo bhi
    if m.size = 0 then 0
    else
      (if alo < m.i ∧ blo < m.j then matchingTotalF a b fuel alo m.i blo m.j else 0)
      + m.size
      + (if m.i + m.size < ahi ∧ m.j + m.size < bhi then
          matchingTotalF a b fuel (m.i + m.size) ahi (m.j + m.size) bhi else 0)

/-- The value `SequenceMatcher(None, a, b).ratio()` as a rational:
`2*M / (len(a)+len(b))`, and `1.0` when both inputs are empty
(`_calculate_ratio` with `length == 0`). -/
def seqRatio (a b : List Char) : ℚ :=
  let M := matchingTotalF a b (a.length + b.length + 1) 0 a.length 0 b.length
  if a.length + b.length = 0 then 1
  else mkRat (2 * M) (a.length + b.length)

/-! ## `text_similarity` (Similarity Scorer) -/

/-- Model of `text_similarity(a, b)` from `src/backend/fetch_and_store_emails.py`
(identical to `similarity` in `src/temp/backfill_urls_and_dedup.py` and
`src/temp/reprocess_email.py`): return `0.0` when either input is empty
(Python truthiness of `str`), else normalize whitespace on both sides and
take the `SequenceMatcher` ratio. -/
def textSimilarityL (a b : List Char) : ℚ :=
  if a = [] ∨ b = [] then 0
  else seqRatio (normalizeWs a) (normalizeWs b)

def text_similarity (a b : String) : ℚ :=
  textSimilarityL a.data b.data

/-! ## Data model

Rows of the four tables touched by the dedup/supersession core.  Ids are
naturals (the source uses uuids; only freshness and equality matter). -/

structure ItemRow where
  id : Nat
  email_id : Nat
  content : String
  date : Option String
  external_urls : List String
  is_current : Bool
  superseded_by : Option Nat
deriving DecidableEq

structure UserItemRow where
  user_id : Nat
  item_id : Nat
  status : String
  remind_at : Option String
deriving DecidableEq

structure EmailRow where
  id : Nat
  gmail_id : String
  subject : Option String
  from_address : Option String
  date : Option String
  body : Option String
  privacy_check_passed : Option Bool
deriving DecidableEq

structure AttachmentRow where
  id : Nat
  email_id : Nat
  filename : String
  mime_type : String
  file_size : Nat
  item_id : Option Nat
deriving DecidableEq

structure DB where
  emails : List EmailRow
  attachments : List AttachmentRow
  items : List ItemRow
  user_items : List UserItemRow
  nextEmailId : Nat
  nextAttachmentId : Nat
  nextItemId : Nat
deriving DecidableEq

/-! ## Match Resolver (`find_similar_item`) -/

/-- The constant `SIMILARITY_THRESHOLD = 0.85` (the float threshold as a rational). -/
def SIMILARITY_THRESHOLD : ℚ := mkRat 85 100

/-- The intersection `set(new_urls) & set(existing_urls)`: only non-emptiness of the
intersection is consumed. -/
def sharedUrls (new_urls existing_urls : List String) : List String :=
  new_urls.filter (fun u => existing_urls.contains u)

/-- The per-item loop of `find_similar_item`
(`src/backend/fetch_and_store_emails.py:392-411`): for each existing
current item, first the URL check (shared URLs and equal dates return
confidence 1.0), then `continue` on a date mismatch, then the text
similarity check against the 0.85 threshold.  The backend names the date
column `date`; `src/temp/reprocess_email.py` names it `date_start`, with
identical logic. -/
def find_similar_scan (new_content : String) (new_date : Option String)
    (new_urls : List String) : List ItemRow → Option Nat × ℚ
  | [] => (none, 0)
  | existing :: rest =>
    if sharedUrls new_urls existing.external_urls ≠ [] ∧ new_date = existing.date then
      (some existing.id, 1)
    else if new_date ≠ existing.date then
      find_similar_scan new_content new_date new_urls rest
    else
      let sim := text_similarity new_content existing.content
      if SIMILARITY_THRESHOLD ≤ sim then (some existing.id, sim)
      else find_similar_scan new_content new_date new_urls rest

/-- Model of `find_similar_item`: the scan over the rows returned by
`select(...).eq('is_current', True)`, in stable table order. -/
def find_similar_item (new_content : String) (new_date : Option String)
    (new_urls : List String) (items : List ItemRow) : Option Nat × ℚ :=
  find_similar_scan new_content new_date new_urls (items.filter (fun r => r.is_current))

/-! ## Supersession Engine (`supersede_item`) -/

/-- One migration insert:
`try: insert user_items row; except duplicate-key: pass`.  The insert is a
no-op when a row with the same `(user_id, item_id)` key already exists. -/
def insertUserItem (rows : List UserItemRow) (row : UserItemRow) : List UserItemRow :=
  if rows.any (fun r => r.user_id = row.user_id ∧ r.item_id = row.item_id) then rows
  else rows ++ [row]

/-- Model of `supersede_item(old_item_id, new_item_id)`
(`src/backend/fetch_and_store_emails.py:414-439`): mark the old item
`is_current = False, superseded_by = new_item_id`, then copy each of the
old item's `user_items` rows to the new item, skipping duplicates.  Old
`user_items` rows are never deleted. -/
def supersede_item (old_item_id new_item_id : Nat) (db : DB) : DB :=
  let items2 := db.items.map (fun r =>
    if r.id = old_item_id then
      { r with is_current := false, superseded_by := some new_item_id }
    else r)
  let old_user_items := db.user_items.filter (fun u => u.item_id = old_item_id)
  let user_items2 := old_user_items.foldl (fun acc u =>
    insertUserItem acc
      { user_id := u.user_id, item_id := new_item_id,
        status := u.status, remind_at := u.remind_at }) db.user_items
  { db with items := items2, user_items := user_items2 }

/-! ## Ingestion per-item save (`save_item`) -/

structure ExtractedItem where
  content : String
  date : Option String
  external_urls : List String
  attachment_filenames : List String
deriving DecidableEq

/-- Model of `save_item(email_id, item)`
(`src/backend/fetch_and_store_emails.py:442-468`): run the Match Resolver
over the *pre-insert* table, insert the new row unconditionally with
`is_current = TRUE` and a fresh id, then supersede the matched item (if
any) in favour of the new row. -/
def save_item (email_id : Nat) (item : ExtractedItem) (db : DB) : DB × Nat :=
  let found := find_similar_item item.content item.date item.external_urls db.items
  let new_item_id := db.nextItemId
  let db1 := { db with
    items := db.items ++
      [ItemRow.mk new_item_id email_id item.content item.date item.external_urls true none],
    nextItemId := new_item_id + 1 }
  match found.1 with
  | some similar_id => (supersede_item similar_id new_item_id db1, new_item_id)
  | none => (db1, new_item_id)

/-! ## Ingestion State Machine (per-message slice of `fetch_and_store_emails`) -/

structure AttachmentMeta where
  filename : String
  mime_type : String
  size : Nat
deriving DecidableEq

/-- A fetched message; `date` is the already-parsed date value (the
source's regex/`dateutil` date recovery is not load-bearing for any claim
and is abstracted as the parsed result). -/
structure EmailMsg where
  gmail_id : String
  subject : String
  from_address : String
  date : Option String
  body : String
  attachments : List AttachmentMeta
deriving DecidableEq

structure Classification where
  privacy_check_passed : Bool
  reason : Option String
  items : List ExtractedItem
deriving DecidableEq

/-- Model of `store_failed_email(gmail_id)`
(`src/backend/fetch_and_store_emails.py:483-493`): insert the minimal row
`{gmail_id, privacy_check_passed: False}`; a duplicate-key failure (the row
already exists) is caught and logged, leaving the table unchanged. -/
def store_failed_email (gmail_id : String) (db : DB) : DB :=
  if db.emails.any (fun e => e.gmail_id = gmail_id) then db
  else { db with
    emails := db.emails ++
      [EmailRow.mk db.nextEmailId gmail_id none none none none (some false)],
    nextEmailId := db.nextEmailId + 1 }

/-- Model of `store_email_in_database`: insert the full email row (body included,
`privacy_check_passed` not yet set) and one attachment row per downloaded
attachment. -/
def store_email_in_database (msg : EmailMsg) (db : DB) : DB × Nat :=
  let email_id := db.nextEmailId
  let db1 := { db with
    emails := db.emails ++
      [EmailRow.mk email_id msg.gmail_id (some msg.subject) (some msg.from_address)
        msg.date (some msg.body) none],
    nextEmailId := email_id + 1 }
  let db2 := msg.attachments.foldl (fun d a =>
    { d with
      attachments := d.attachments ++
        [AttachmentRow.mk d.nextAttachmentId email_id a.filename a.mime_type a.size none],
      nextAttachmentId := d.nextAttachmentId + 1 }) db1
  (db2, email_id)

/-- Update `emails set privacy_check_passed = TRUE where id = email_id`. -/
def markPrivacyPassed (email_id : Nat) (db : DB) : DB :=
  { db with emails := db.emails.map (fun e =>
      if e.id = email_id then { e with privacy_check_passed := some true } else e) }

/-- Model of `link_attachments_to_item`: set `item_id` on this email's attachment
rows whose filename appears in the item's `attachment_filenames`. -/
def link_attachments_to_item (item_id email_id : Nat)
    (attachment_filenames : List String) (db : DB) : DB :=
  { db with attachments := db.attachments.map (fun a =>
      if a.email_id = email_id ∧ a.filename ∈ attachment_filenames then
        { a with item_id := some item_id }
      else a) }

/-- The `for item in items` loop: `save_item` then attachment linking. -/
def processItems (email_id : Nat) (items : List ExtractedItem) (db : DB) : DB :=
  items.foldl (fun d it =>
    let r := save_item email_id it d
    link_attachments_to_item r.2 email_id it.attachment_filenames r.1) db

/-- One iteration of the per-message loop of `fetch_and_store_emails`
(`src/backend/fetch_and_store_emails.py:543-645`): skip when the
`gmail_id` is already stored; skip when the classification call or the
JSON parse failed (`.error`); on `privacy_check_passed` false store only
the minimal failed row; otherwise store the full email with attachments,
mark the privacy flag, and save/link each extracted item. -/
def processMessage (msg : EmailMsg) (cls : Except Unit Classification) (db : DB) : DB :=
  if db.emails.any (fun e => e.gmail_id = msg.gmail_id) then db
  else
    match cls with
    | .error _ => db
    | .ok result =>
      if !result.privacy_check_passed then store_failed_email msg.gmail_id db
      else
        let r := store_email_in_database msg db
        let db2 := markPrivacyPassed r.2 r.1
        processItems r.2 result.items db2

/-! ## End-date backfill (`src/temp/backfill_end_dates.py`) -/

structure BFItem where
  id : Nat
  content : String
  date_start : Option String
  date_end : Option String
deriving DecidableEq

/-- Update `items set date_end = end_date where id = item_id`. -/
def bfUpdate (rows : List BFItem) (item_id : Nat) (end_date : String) : List BFItem :=
  rows.map (fun r => if r.id = item_id then { r with date_end := some end_date } else r)

/-- Python's `str` `<`: lexicographic comparison by code point. -/
def charListLt : List Char → List Char → Bool
  | [], [] => false
  | [], _ :: _ => true
  | _ :: _, [] => false
  | c :: cs, d :: ds => if c < d then true else if d < c then false else charListLt cs ds

def pyStrLt (a b : String) : Bool := charListLt a.data b.data

/-- One iteration of the `backfill_end_dates` loop over a selected item:
no extracted end date leaves the table alone; an end date earlier than the
item's start date is skipped with a warning (`continue`); otherwise the
item's `date_end` is written. -/
def bfStep (extractEnd : String → Option String → Option String)
    (acc : List BFItem) (item : BFItem) : List BFItem :=
  match extractEnd item.content item.date_start with
  | none => acc
  | some end_date =>
    match item.date_start with
    | some start_date =>
      if pyStrLt end_date start_date then acc else bfUpdate acc item.id end_date
    | none => bfUpdate acc item.id end_date

/-- The loop of `backfill_end_dates`
(`src/temp/backfill_end_dates.py:107-142`), parameterized by the end-date
extraction `extractEnd` (the source's `extract_end_date_from_content`,
regex plus `dateutil` parsing over ISO `YYYY-MM-DD` strings, is treated
as an oracle — the claims quantify over its output).  It iterates the
snapshot of rows with `date_end` null, applying `bfStep` to the table. -/
def backfill_end_dates (extractEnd : String → Option String → Option String)
    (rows : List BFItem) : List BFItem :=
  (rows.filter (fun r => r.date_end = none)).foldl (bfStep extractEnd) rows

/-! ## Characterization of the Match Resolver scan -/

/-- Per-item qualification in the scan order of `find_similar_item`:
URL match (shared URL and equal dates) or text match (equal dates and
similarity at or above the 0.85 threshold). -/
def qualB (new_content : String) (new_date : Option String)
    (new_urls : List String) (r : ItemRow) : Bool :=
  decide ((sharedUrls new_urls r.external_urls ≠ [] ∧ new_date = r.date) ∨
    (new_date = r.date ∧ SIMILARITY_THRESHOLD ≤ text_similarity new_content r.content))

/-- Confidence reported for a qualifying item: 1.0 on a URL match, the
similarity ratio otherwise. -/
def confOf (new_content : String) (new_date : Option String)
    (new_urls : List String) (r : ItemRow) : ℚ :=
  if sharedUrls new_urls r.external_urls ≠ [] ∧ new_date = r.date then 1
  else text_similarity new_content r.content

lemma find_similar_scan_eq_find? (c : String) (d : Option String) (us : List String) :
    ∀ rows : List ItemRow,
      find_similar_scan c d us rows =
        match rows.find? (qualB c d us) with
        | some r => (some r.id, confOf c d us r)
        | none => (none, 0)
  | [] => rfl
  | r :: rows => by
    by_cases h1 : sharedUrls us r.external_urls ≠ [] ∧ d = r.date
    · have hq : qualB c d us r = true := by
        simp only [qualB, decide_eq_true_eq]
        exact Or.inl h1
      rw [find_similar_scan, if_pos h1, List.find?_cons_of_pos _ hq]
      simp [confOf, h1]
    · by_cases h2 : d = r.date
      · by_cases h3 : SIMILARITY_THRESHOLD ≤ text_similarity c r.content
        · have hq : qualB c d us r = true := by
            simp only [qualB, decide_eq_true_eq]
            exact Or.inr ⟨h2, h3⟩
          rw [find_similar_scan, if_neg h1, if_neg (not_not_intro h2),
            List.find?_cons_of_pos _ hq]
          simp only [if_pos h3, confOf, if_neg h1]
        · have hq : ¬ qualB c d us r = true := by
            simp only [qualB, decide_eq_true_eq]
            rintro (hc | hc)
            · exact h1 hc
            · exact h3 hc.2
          rw [find_similar_scan, if_neg h1, if_neg (not_not_intro h2),
            List.find?_cons_of_neg _ hq]
          simp only [if_neg h3]
          exact find_similar_scan_eq_find? c d us rows
      · have hq : ¬ qualB c d us r = true := by
          simp only [qualB, decide_eq_true_eq]
          rintro (hc | hc)
          · exact h2 hc.2
          · exact h2 hc.1
        rw [find_similar_scan, if_neg h1, if_pos h2, List.find?_cons_of_neg _ hq]
        exact find_similar_scan_eq_find? c d us rows

lemma find_similar_item_eq (c : String) (d : Option String) (us : List String)
    (rows : List ItemRow) :
    find_similar_item c d us rows =
      match (rows.filter (fun r => r.is_current)).find? (qualB c d us) with
      | some r => (some r.id, confOf c d us r)
      | none => (none, 0) :=
  find_similar_scan_eq_find? c d us _

/-- Any reported match comes from a current row in the table whose date
equals the candidate's date. -/
lemma find_similar_item_some (c : String) (d : Option String) (us : List String)
    (rows : List ItemRow) (i : Nat) (q : ℚ)
    (h : find_similar_item c d us rows = (some i, q)) :
    ∃ r ∈ rows, r.is_current = true ∧ r.id = i ∧ d = r.date := by
  rw [find_similar_item_eq] at h
  rcases hf : (rows.filter (fun r => r.is_current)).find? (qualB c d us) with _ | r
  · rw [hf] at h
    simp at h
  · rw [hf] at h
    have hmem := List.mem_of_find?_eq_some hf
    have hcur : r.is_current = true := (List.mem_filter.mp hmem).2
    have hq := List.find?_some hf
    simp only [qualB, decide_eq_true_eq] at hq
    have hid : r.id = i := by
      have := congrArg Prod.fst h
      simpa using this
    refine ⟨r, (List.mem_filter.mp hmem).1, hcur, hid, ?_⟩
    rcases hq with hc | hc
    · exact hc.2
    · exact hc.1

/-- When no current row qualifies, the resolver returns `(None, 0.0)`. -/
lemma find_similar_item_none (c : String) (d : Option String) (us : List String)
    (rows : List ItemRow)
    (h : ∀ r ∈ rows, r.is_current = true → qualB c d us r ≠ true) :
    find_similar_item c d us rows = (none, 0) := by
  rw [find_similar_item_eq]
  have hf : (rows.filter (fun r => r.is_current)).find? (qualB c d us) = none := by
    rw [List.find?_eq_none]
    intro x hx
    exact h x (List.mem_filter.mp hx).1 (List.mem_filter.mp hx).2
  rw [hf]

/-! ## Concrete resolver inputs used by counterexamples and witnesses -/

/-- An active item whose content is 12/13 ≈ 0.92 similar to the candidate
content `"abcdef"` (earlier in the scan order). -/
def exItemText : ItemRow := ItemRow.mk 0 0 "abcdefg" none [] true none

/-- An active item sharing the URL `http://x` with the candidate (later in
the scan order), with dissimilar content. -/
def exItemUrl : ItemRow := ItemRow.mk 1 0 "zzz" none ["http://x"] true none

/-- An active item with content 9/10 similar to `"abcdefghij"`. -/
def exItemSim : ItemRow := ItemRow.mk 0 0 "abcdefghiX" none [] true none

/-- An active item sharing a URL with the candidate but with a different
date. -/
def exItemUrlOtherDate : ItemRow :=
  ItemRow.mk 0 0 "zzz" (some "2025-01-02") ["http://x"] true none

/-- C1: the claim states that URL-based matching is checked across all
active items before any text-similarity fallback, so that a qualifying URL
match is always returned.  False on the code: the scan interleaves both
checks per item, so the earlier text-similar item `exItemText` is returned
with its similarity ratio even though the later item `exItemUrl` has a
qualifying URL match (shared URL, equal dates). -/
theorem C1_counterexample :
    (exItemUrl ∈ [exItemText, exItemUrl] ∧ exItemUrl.is_current = true ∧
      sharedUrls ["http://x"] exItemUrl.external_urls ≠ [] ∧
      (none : Option String) = exItemUrl.date) ∧
    find_similar_item "abcdef" none ["http://x"] [exItemText, exItemUrl] ≠
      (some exItemUrl.id, 1) := by
  constructor
  · exact ⟨by decide, by decide, by decide, by decide⟩
  · decide

/-- C1 (amended): the Match Resolver makes a single pass over the active
items in scan order, checking for each item first the URL match and then
the text match; the first item qualifying under either test is returned
(confidence 1.0 for a URL match, the similarity ratio for a text match),
so a qualifying URL match on a later item is shadowed by an earlier
qualifying text match. -/
theorem C1_resolver_first_qualifying_per_item (c : String) (d : Option String)
    (us : List String) (rows : List ItemRow) :
    find_similar_item c d us rows =
      match (rows.filter (fun r => r.is_current)).find? (qualB c d us) with
      | some r => (some r.id, confOf c d us r)
      | none => (none, 0) :=
  find_similar_item_eq c d us rows

/-- C5: with no shared URLs anywhere in the active set, the resolver
returns a match with confidence equal to the computed similarity ratio as
soon as some current item with equal date has similarity ≥ 0.85, and
returns `(None, 0.0)` when every current item with equal date has
similarity < 0.85. -/
theorem C5_text_match_threshold (c : String) (d : Option String) (us : List String)
    (rows : List ItemRow)
    (hnourl : ∀ r ∈ rows, r.is_current = true → sharedUrls us r.external_urls = []) :
    ((∃ r ∈ rows, r.is_current = true ∧ d = r.date ∧
        SIMILARITY_THRESHOLD ≤ text_similarity c r.content) →
      ∃ r ∈ rows, r.is_current = true ∧ d = r.date ∧
        SIMILARITY_THRESHOLD ≤ text_similarity c r.content ∧
        find_similar_item c d us rows = (some r.id, text_similarity c r.content)) ∧
    ((∀ r ∈ rows, r.is_current = true → d = r.date →
        text_similarity c r.content < SIMILARITY_THRESHOLD) →
      find_similar_item c d us rows = (none, 0)) := by
  constructor
  · rintro ⟨r, hr, hcur, hdate, hsim⟩
    have hqr : qualB c d us r = true := by
      simp only [qualB, decide_eq_true_eq]
      exact Or.inr ⟨hdate, hsim⟩
    have hrf : r ∈ rows.filter (fun x => x.is_current) :=
      List.mem_filter.mpr ⟨hr, hcur⟩
    have hsome : ((rows.filter (fun x => x.is_current)).find? (qualB c d us)).isSome := by
      rw [List.find?_isSome]
      exact ⟨r, hrf, hqr⟩
    rcases hf : (rows.filter (fun x => x.is_current)).find? (qualB c d us) with _ | r0
    · rw [hf] at hsome
      simp at hsome
    · have hmem0 := List.mem_of_find?_eq_some hf
      have hq0 := List.find?_some hf
      simp only [qualB, decide_eq_true_eq] at hq0
      have hcur0 : r0.is_current = true := (List.mem_filter.mp hmem0).2
      have hmemrows : r0 ∈ rows := (List.mem_filter.mp hmem0).1
      have hnour0 : sharedUrls us r0.external_urls = [] := hnourl r0 hmemrows hcur0
      have hq0t : d = r0.date ∧ SIMILARITY_THRESHOLD ≤ text_similarity c r0.content := by
        rcases hq0 with hc | hc
        · exact absurd hnour0 hc.1
        · exact hc
      refine ⟨r0, hmemrows, hcur0, hq0t.1, hq0t.2, ?_⟩
      rw [find_similar_item_eq, hf]
      have hco : confOf c d us r0 = text_similarity c r0.content := by
        unfold confOf
        rw [if_neg]
        rintro ⟨hs, _⟩
        exact hs hnour0
      show (some r0.id, confOf c d us r0) = (some r0.id, text_similarity c r0.content)
      rw [hco]
  · intro hall
    apply find_similar_item_none
    intro r hr hcur hq
    rcases of_decide_eq_true hq with hc | hc
    · exact hc.1 (hnourl r hr hcur)
    · exact absurd hc.2 (not_le.mpr (hall r hr hcur hc.1))

/-- C5 witness: the 0.90-similar item is matched with confidence 9/10. -/
theorem C5_witness :
    ∃ r ∈ [exItemSim], r.is_current = true ∧ (none : Option String) = r.date ∧
      SIMILARITY_THRESHOLD ≤ text_similarity "abcdefghij" r.content ∧
      find_similar_item "abcdefghij" none [] [exItemSim] =
        (some r.id, text_similarity "abcdefghij" r.content) :=
  (C5_text_match_threshold "abcdefghij" none [] [exItemSim]
      (by decide)).1
    ⟨exItemSim, by decide, by decide, by decide, by decide⟩

/-- C6: an active item whose date differs from the candidate's is never
returned as a match even if it shares a URL (any reported match has equal
dates), and when every current item has a mismatched date the resolver
returns `(None, 0.0)`. -/
theorem C6_date_mismatch_blocks_url_match (c : String) (d : Option String)
    (us : List String) (rows : List ItemRow) :
    (∀ i q, find_similar_item c d us rows = (some i, q) →
      ∃ r ∈ rows, r.is_current = true ∧ r.id = i ∧ d = r.date) ∧
    ((∀ r ∈ rows, r.is_current = true → d ≠ r.date) →
      find_similar_item c d us rows = (none, 0)) := by
  constructor
  · intro i q h
    exact find_similar_item_some c d us rows i q h
  · intro hall
    apply find_similar_item_none
    intro r hr hcur hq
    rcases of_decide_eq_true hq with hc | hc
    · exact hall r hr hcur hc.2
    · exact hall r hr hcur hc.1

/-- C6 witness: one shared URL but differing dates yields no match. -/
theorem C6_witness :
    find_similar_item "abc" (some "2025-01-01") ["http://x"] [exItemUrlOtherDate]
      = (none, 0) :=
  (C6_date_mismatch_blocks_url_match "abc" (some "2025-01-01") ["http://x"]
      [exItemUrlOtherDate]).2 (by decide)

/-! ## Supersession Engine lemmas -/

/-- A row with the `(user_id, item_id)` unique key is present. -/
def hasKey (rows : List UserItemRow) (uid iid : Nat) : Prop :=
  ∃ r ∈ rows, r.user_id = uid ∧ r.item_id = iid

/-- The `(user_id, item_id)` unique constraint: no two rows share a key. -/
def NodupKeys (rows : List UserItemRow) : Prop :=
  (rows.map (fun u => (u.user_id, u.item_id))).Nodup

/-- The copied row migrated to the superseding item. -/
def migrateRow (new_item_id : Nat) (u : UserItemRow) : UserItemRow :=
  UserItemRow.mk u.user_id new_item_id u.status u.remind_at

/-- The user-status migration fold of `supersede_item`. -/
def migrate (new_item_id : Nat) (M acc : List UserItemRow) : List UserItemRow :=
  M.foldl (fun a u => insertUserItem a (migrateRow new_item_id u)) acc

lemma supersede_item_user_items (old new : Nat) (db : DB) :
    (supersede_item old new db).user_items =
      migrate new (db.user_items.filter (fun u => u.item_id = old)) db.user_items := rfl

lemma insertUserItem_of_hasKey (rows : List UserItemRow) (row : UserItemRow)
    (h : hasKey rows row.user_id row.item_id) : insertUserItem rows row = rows := by
  unfold insertUserItem
  rw [if_pos]
  rcases h with ⟨r, hr, h1, h2⟩
  exact List.any_eq_true.mpr ⟨r, hr, by simp [h1, h2]⟩

lemma insertUserItem_of_not_hasKey (rows : List UserItemRow) (row : UserItemRow)
    (h : ¬ hasKey rows row.user_id row.item_id) :
    insertUserItem rows row = rows ++ [row] := by
  unfold insertUserItem
  rw [if_neg]
  intro hany
  rcases List.any_eq_true.mp hany with ⟨r, hr, hp⟩
  have hp2 := of_decide_eq_true hp
  exact h ⟨r, hr, hp2.1, hp2.2⟩

lemma mem_insertUserItem (rows : List UserItemRow) (row x : UserItemRow)
    (h : x ∈ rows) : x ∈ insertUserItem rows row := by
  unfold insertUserItem
  by_cases hc : rows.any (fun r => r.user_id = row.user_id ∧ r.item_id = row.item_id)
  · rw [if_pos hc]
    exact h
  · rw [if_neg hc]
    exact List.mem_append_left _ h

lemma insertUserItem_hasKey_self (rows : List UserItemRow) (row : UserItemRow) :
    hasKey (insertUserItem rows row) row.user_id row.item_id := by
  by_cases h : hasKey rows row.user_id row.item_id
  · rw [insertUserItem_of_hasKey rows row h]
    exact h
  · rw [insertUserItem_of_not_hasKey rows row h]
    exact ⟨row, List.mem_append_right _ (List.mem_singleton_self row), rfl, rfl⟩

lemma insertUserItem_mem_cases (rows : List UserItemRow) (row x : UserItemRow)
    (h : x ∈ insertUserItem rows row) : x ∈ rows ∨ x = row := by
  unfold insertUserItem at h
  by_cases hc : rows.any (fun r => r.user_id = row.user_id ∧ r.item_id = row.item_id)
  · rw [if_pos hc] at h
    exact Or.inl h
  · rw [if_neg hc] at h
    rcases List.mem_append.mp h with h2 | h2
    · exact Or.inl h2
    · exact Or.inr (List.mem_singleton.mp h2)

lemma mem_migrate (new : Nat) :
    ∀ (M acc : List UserItemRow) (x : UserItemRow), x ∈ acc → x ∈ migrate new M acc
  | [], _, _, h => h
  | u :: M, acc, x, h =>
    mem_migrate new M (insertUserItem acc (migrateRow new u)) x
      (mem_insertUserItem _ _ _ h)

lemma hasKey_migrate_mono (new : Nat) :
    ∀ (M acc : List UserItemRow) (uid iid : Nat),
      hasKey acc uid iid → hasKey (migrate new M acc) uid iid := by
  intro M acc uid iid h
  rcases h with ⟨r, hr, h1, h2⟩
  exact ⟨r, mem_migrate new M acc r hr, h1, h2⟩

lemma migrate_mem_cases (new : Nat) :
    ∀ (M acc : List UserItemRow) (x : UserItemRow),
      x ∈ migrate new M acc → x ∈ acc ∨ ∃ u ∈ M, x = migrateRow new u
  | [], _, _, h => Or.inl h
  | u :: M, acc, x, h => by
    rcases migrate_mem_cases new M (insertUserItem acc (migrateRow new u)) x h with h2 | h2
    · rcases insertUserItem_mem_cases acc (migrateRow new u) x h2 with h3 | h3
      · exact Or.inl h3
      · exact Or.inr ⟨u, List.mem_cons_self u M, h3⟩
    · rcases h2 with ⟨v, hv, hx⟩
      exact Or.inr ⟨v, List.mem_cons_of_mem u hv, hx⟩

lemma hasKey_migrate_of_mem (new : Nat) :
    ∀ (M acc : List UserItemRow) (u : UserItemRow),
      u ∈ M → hasKey (migrate new M acc) u.user_id new
  | [], _, _, h => absurd h (List.not_mem_nil _)
  | v :: M, acc, u, h => by
    rcases List.mem_cons.mp h with h2 | h2
    · subst h2
      show hasKey (migrate new M (insertUserItem acc (migrateRow new u))) u.user_id new
      apply hasKey_migrate_mono
      exact insertUserItem_hasKey_self acc (migrateRow new u)
    · show hasKey (migrate new M (insertUserItem acc (migrateRow new v))) u.user_id new
      exact hasKey_migrate_of_mem new M _ u h2

lemma migrate_eq_of_all_present (new : Nat) :
    ∀ (M acc : List UserItemRow),
      (∀ u ∈ M, hasKey acc u.user_id new) → migrate new M acc = acc
  | [], _, _ => rfl
  | u :: M, acc, h => by
    have h1 : insertUserItem acc (migrateRow new u) = acc :=
      insertUserItem_of_hasKey acc (migrateRow new u) (h u (List.mem_cons_self u M))
    show migrate new M (insertUserItem acc (migrateRow new u)) = acc
    rw [h1]
    exact migrate_eq_of_all_present new M acc (fun v hv => h v (List.mem_cons_of_mem u hv))

lemma insertUserItem_nodupKeys (rows : List UserItemRow) (row : UserItemRow)
    (h : NodupKeys rows) : NodupKeys (insertUserItem rows row) := by
  by_cases hc : hasKey rows row.user_id row.item_id
  · rw [insertUserItem_of_hasKey rows row hc]
    exact h
  · rw [insertUserItem_of_not_hasKey rows row hc]
    unfold NodupKeys at h ⊢
    rw [List.map_append, List.nodup_append]
    refine ⟨h, List.nodup_singleton _, ?_⟩
    intro k hk hk2
    simp only [List.map_cons, List.map_nil, List.mem_singleton] at hk2
    rcases List.mem_map.mp hk with ⟨r, hr, hrk⟩
    apply hc
    refine ⟨r, hr, ?_, ?_⟩
    · have : (r.user_id, r.item_id) = (row.user_id, row.item_id) := by rw [hrk, hk2]
      exact (Prod.mk.injEq _ _ _ _).mp this |>.1
    · have : (r.user_id, r.item_id) = (row.user_id, row.item_id) := by rw [hrk, hk2]
      exact (Prod.mk.injEq _ _ _ _).mp this |>.2

lemma migrate_nodupKeys (new : Nat) :
    ∀ (M acc : List UserItemRow), NodupKeys acc → NodupKeys (migrate new M acc)
  | [], _, h => h
  | u :: M, acc, h =>
    migrate_nodupKeys new M _ (insertUserItem_nodupKeys acc (migrateRow new u) h)

lemma DB_ext {d1 d2 : DB} (h1 : d1.emails = d2.emails)
    (h2 : d1.attachments = d2.attachments) (h3 : d1.items = d2.items)
    (h4 : d1.user_items = d2.user_items) (h5 : d1.nextEmailId = d2.nextEmailId)
    (h6 : d1.nextAttachmentId = d2.nextAttachmentId)
    (h7 : d1.nextItemId = d2.nextItemId) : d1 = d2 := by
  cases d1
  cases d2
  simp_all

/-- The per-row update of the old item in `supersede_item`. -/
def supMark (old new : Nat) (r : ItemRow) : ItemRow :=
  if r.id = old then { r with is_current := false, superseded_by := some new } else r

lemma supersede_item_items (old new : Nat) (db : DB) :
    (supersede_item old new db).items = db.items.map (supMark old new) := rfl

lemma supMark_idem (old new : Nat) (r : ItemRow) :
    supMark old new (supMark old new r) = supMark old new r := by
  by_cases h : r.id = old
  · simp [supMark, h]
  · simp [supMark, h]

/-- C3: `supersede(old, new)` is idempotent on whole states (so a retry
creates no new rows and cannot error), never deletes the old item's
`UserItemStatus` rows, and preserves the `(user_id, item_id)` unique
constraint (conflicting copies are silently skipped). -/
theorem C3_supersede_idempotent (old new : Nat) (db : DB) :
    supersede_item old new (supersede_item old new db) = supersede_item old new db ∧
    (∀ u ∈ db.user_items, u ∈ (supersede_item old new db).user_items) ∧
    (NodupKeys db.user_items → NodupKeys (supersede_item old new db).user_items) := by
  refine ⟨?_, ?_, ?_⟩
  · apply DB_ext
    · rfl
    · rfl
    · rw [supersede_item_items, supersede_item_items, List.map_map]
      apply List.map_congr_left
      intro r _
      exact supMark_idem old new r
    · rw [supersede_item_user_items, supersede_item_user_items]
      apply migrate_eq_of_all_present
      intro u hu
      have hmem : u ∈ (supersede_item old new db).user_items :=
        (List.mem_filter.mp hu).1
      have hold : u.item_id = old := by
        have := (List.mem_filter.mp hu).2
        exact of_decide_eq_true this
      rcases migrate_mem_cases new _ _ u hmem with h2 | h2
      · have hu0 : u ∈ db.user_items.filter (fun v => v.item_id = old) :=
          List.mem_filter.mpr ⟨h2, by simp [hold]⟩
        exact hasKey_migrate_of_mem new _ db.user_items u hu0
      · rcases h2 with ⟨v, _, hv⟩
        have hnew : u.item_id = new := by rw [hv]; rfl
        exact ⟨u, hmem, rfl, hnew⟩
    · rfl
    · rfl
    · rfl
  · intro u hu
    rw [supersede_item_user_items]
    exact mem_migrate new _ db.user_items u hu
  · intro h
    rw [supersede_item_user_items]
    exact migrate_nodupKeys new _ db.user_items h

/-- A one-current-item, one-user-status state for the C3 witness. -/
def exDB3 : DB :=
  DB.mk [] [] [ItemRow.mk 0 0 "a" none [] true none]
    [UserItemRow.mk 5 0 "saved" none] 0 0 1

/-- C3 witness: idempotence and key uniqueness at a concrete state. -/
theorem C3_witness :
    NodupKeys exDB3.user_items ∧
    supersede_item 0 1 (supersede_item 0 1 exDB3) = supersede_item 0 1 exDB3 ∧
    NodupKeys (supersede_item 0 1 exDB3).user_items :=
  ⟨by unfold NodupKeys; decide, (C3_supersede_idempotent 0 1 exDB3).1,
    (C3_supersede_idempotent 0 1 exDB3).2.2 (by unfold NodupKeys; decide)⟩

/-! ## Claim C4: privacy-failed emails -/

/-- The database with no rows, before the first run. -/
def emptyDB : DB := DB.mk [] [] [] [] 0 0 0

/-- C4: when the classification response has `privacy_check_passed` false,
only the minimal email row (gmail id and the `False` flag; no subject, no
body) is stored; item, attachment and user-status tables are untouched;
and when the minimal row already exists, the duplicate insert is caught
and the state is unchanged rather than an error being raised. -/
theorem C4_privacy_failed_minimal_row (msg : EmailMsg) (cls : Classification)
    (db : DB) (h : cls.privacy_check_passed = false) :
    (processMessage msg (.ok cls) db).items = db.items ∧
    (processMessage msg (.ok cls) db).attachments = db.attachments ∧
    (processMessage msg (.ok cls) db).user_items = db.user_items ∧
    (processMessage msg (.ok cls) db).emails =
      (if db.emails.any (fun e => e.gmail_id = msg.gmail_id) then db.emails
       else db.emails ++
         [EmailRow.mk db.nextEmailId msg.gmail_id none none none none (some false)]) ∧
    (db.emails.any (fun e => e.gmail_id = msg.gmail_id) = true →
      store_failed_email msg.gmail_id db = db) := by
  by_cases hex : db.emails.any (fun e => e.gmail_id = msg.gmail_id) = true
  · have hpm : processMessage msg (.ok cls) db = db := by
      unfold processMessage
      rw [if_pos hex]
    rw [hpm, if_pos hex]
    refine ⟨rfl, rfl, rfl, rfl, fun _ => ?_⟩
    unfold store_failed_email
    rw [if_pos hex]
  · have hsf : store_failed_email msg.gmail_id db =
        { db with
          emails := db.emails ++
            [EmailRow.mk db.nextEmailId msg.gmail_id none none none none (some false)],
          nextEmailId := db.nextEmailId + 1 } := by
      unfold store_failed_email
      rw [if_neg hex]
    have hpm : processMessage msg (.ok cls) db = store_failed_email msg.gmail_id db := by
      unfold processMessage
      rw [if_neg hex]
      simp [h]
    rw [hpm, hsf, if_neg hex]
    exact ⟨rfl, rfl, rfl, rfl, fun hc => absurd hc hex⟩

def exMsgFail : EmailMsg := EmailMsg.mk "g1" "subject" "from" none "test" []

def exClsFail : Classification :=
  Classification.mk false (some "contains SSN") [ExtractedItem.mk "test item" none [] []]

/-- C4 witness: a failing classification on the empty database stores
exactly the minimal row and creates no items. -/
theorem C4_witness :
    (processMessage exMsgFail (.ok exClsFail) emptyDB).items = emptyDB.items ∧
    (processMessage exMsgFail (.ok exClsFail) emptyDB).emails =
      [EmailRow.mk 0 "g1" none none none none (some false)] := by
  have h := C4_privacy_failed_minimal_row exMsgFail exClsFail emptyDB rfl
  refine ⟨h.1, ?_⟩
  rw [h.2.2.2.1]
  decide

/-! ## Reachable-state invariant of the ingestion path -/

/-- Invariant of the items table along the ingestion path: ids are below
the id counter, current rows have no supersession pointer, and every
non-current row points to a distinct, existing row. -/
def ItemsInv (db : DB) : Prop :=
  (∀ r ∈ db.items, r.id < db.nextItemId) ∧
  (∀ r ∈ db.items, r.is_current = true → r.superseded_by = none) ∧
  (∀ r ∈ db.items, r.is_current = false →
    ∃ j, r.superseded_by = some j ∧ j ≠ r.id ∧ ∃ r2 ∈ db.items, r2.id = j)

lemma ItemsInv_of_eq {d1 d2 : DB} (hitems : d2.items = d1.items)
    (hnext : d2.nextItemId = d1.nextItemId) (h : ItemsInv d1) : ItemsInv d2 := by
  unfold ItemsInv at h ⊢
  rw [hitems, hnext]
  exact h

/-- The unconditional insert of `save_item`. -/
def insertNewItem (email_id : Nat) (item : ExtractedItem) (db : DB) : DB :=
  { db with
    items := db.items ++
      [ItemRow.mk db.nextItemId email_id item.content item.date item.external_urls true none],
    nextItemId := db.nextItemId + 1 }

lemma save_item_spec (email_id : Nat) (item : ExtractedItem) (db : DB) :
    (save_item email_id item db).1 =
      match (find_similar_item item.content item.date item.external_urls db.items).1 with
      | some old => supersede_item old db.nextItemId (insertNewItem email_id item db)
      | none => insertNewItem email_id item db := by
  simp only [save_item]
  cases (find_similar_item item.content item.date item.external_urls db.items).1 with
  | none => rfl
  | some old => rfl

lemma supMark_id (old new : Nat) (r : ItemRow) : (supMark old new r).id = r.id := by
  unfold supMark
  split
  · rfl
  · rfl

lemma insertNewItem_inv (email_id : Nat) (item : ExtractedItem) (db : DB)
    (h : ItemsInv db) : ItemsInv (insertNewItem email_id item db) := by
  obtain ⟨hid, hcur, hsup⟩ := h
  refine ⟨?_, ?_, ?_⟩
  · intro r hr
    rcases List.mem_append.mp hr with h2 | h2
    · exact Nat.lt_succ_of_lt (hid r h2)
    · rw [List.mem_singleton.mp h2]
      exact Nat.lt_succ_self _
  · intro r hr hc
    rcases List.mem_append.mp hr with h2 | h2
    · exact hcur r h2 hc
    · rw [List.mem_singleton.mp h2]
  · intro r hr hc
    rcases List.mem_append.mp hr with h2 | h2
    · rcases hsup r h2 hc with ⟨j, hj1, hj2, r2, hr2, hr2id⟩
      exact ⟨j, hj1, hj2, r2, List.mem_append_left _ hr2, hr2id⟩
    · rw [List.mem_singleton.mp h2] at hc
      simp at hc

lemma supersede_item_inv (old new : Nat) (db : DB) (h : ItemsInv db)
    (hne : new ≠ old) (hnewmem : ∃ r2 ∈ db.items, r2.id = new) :
    ItemsInv (supersede_item old new db) := by
  obtain ⟨hid, hcur, hsup⟩ := h
  unfold ItemsInv
  rw [supersede_item_items]
  refine ⟨?_, ?_, ?_⟩
  · intro r hr
    rcases List.mem_map.mp hr with ⟨r0, hr0, hr0e⟩
    rw [← hr0e, supMark_id]
    exact hid r0 hr0
  · intro r hr hc
    rcases List.mem_map.mp hr with ⟨r0, hr0, hr0e⟩
    by_cases h0 : r0.id = old
    · exfalso
      rw [← hr0e] at hc
      unfold supMark at hc
      rw [if_pos h0] at hc
      simp at hc
    · rw [← hr0e]
      unfold supMark
      rw [if_neg h0]
      rw [← hr0e] at hc
      unfold supMark at hc
      rw [if_neg h0] at hc
      exact hcur r0 hr0 hc
  · intro r hr hc
    rcases List.mem_map.mp hr with ⟨r0, hr0, hr0e⟩
    by_cases h0 : r0.id = old
    · refine ⟨new, ?_, ?_, ?_⟩
      · rw [← hr0e]
        unfold supMark
        rw [if_pos h0]
      · rw [← hr0e, supMark_id, h0]
        exact hne
      · rcases hnewmem with ⟨r2, hr2, hr2id⟩
        refine ⟨supMark old new r2, List.mem_map_of_mem _ hr2, ?_⟩
        rw [supMark_id]
        exact hr2id
    · rw [← hr0e] at hc
      unfold supMark at hc
      rw [if_neg h0] at hc
      rcases hsup r0 hr0 hc with ⟨j, hj1, hj2, r2, hr2, hr2id⟩
      refine ⟨j, ?_, ?_, supMark old new r2, List.mem_map_of_mem _ hr2, ?_⟩
      · rw [← hr0e]
        unfold supMark
        rw [if_neg h0]
        exact hj1
      · rw [← hr0e, supMark_id]
        exact hj2
      · rw [supMark_id]
        exact hr2id

lemma save_item_inv (email_id : Nat) (item : ExtractedItem) (db : DB)
    (h : ItemsInv db) : ItemsInv (save_item email_id item db).1 := by
  rw [save_item_spec]
  rcases hf : (find_similar_item item.content item.date item.external_urls db.items).1
    with _ | old
  · exact insertNewItem_inv email_id item db h
  · have hp : find_similar_item item.content item.date item.external_urls db.items =
        (some old,
          (find_similar_item item.content item.date item.external_urls db.items).2) := by
      rw [← hf]
    rcases find_similar_item_some item.content item.date item.external_urls db.items
        old _ hp with ⟨r, hr, _, hrid, _⟩
    have hlt : old < db.nextItemId := by
      rw [← hrid]
      exact h.1 r hr
    apply supersede_item_inv
    · exact insertNewItem_inv email_id item db h
    · exact Nat.ne_of_gt hlt
    · refine ⟨ItemRow.mk db.nextItemId email_id item.content item.date
        item.external_urls true none, ?_, rfl⟩
      exact List.mem_append_right _ (List.mem_singleton_self _)

lemma processItems_inv (email_id : Nat) :
    ∀ (its : List ExtractedItem) (db : DB),
      ItemsInv db → ItemsInv (processItems email_id its db)
  | [], _, h => h
  | it :: its, db, h => by
    show ItemsInv (processItems email_id its
      (link_attachments_to_item (save_item email_id it db).2 email_id
        it.attachment_filenames (save_item email_id it db).1))
    exact processItems_inv email_id its _ (save_item_inv email_id it db h)

lemma storeAttach_fold_items (email_id : Nat) :
    ∀ (ats : List AttachmentMeta) (d : DB),
      (ats.foldl (fun d a =>
        { d with
          attachments := d.attachments ++
            [AttachmentRow.mk d.nextAttachmentId email_id a.filename a.mime_type a.size none],
          nextAttachmentId := d.nextAttachmentId + 1 }) d).items = d.items
  | [], _ => rfl
  | _ :: ats, _d => storeAttach_fold_items email_id ats _

lemma storeAttach_fold_nextItemId (email_id : Nat) :
    ∀ (ats : List AttachmentMeta) (d : DB),
      (ats.foldl (fun d a =>
        { d with
          attachments := d.attachments ++
            [AttachmentRow.mk d.nextAttachmentId email_id a.filename a.mime_type a.size none],
          nextAttachmentId := d.nextAttachmentId + 1 }) d).nextItemId = d.nextItemId
  | [], _ => rfl
  | _ :: ats, _d => storeAttach_fold_nextItemId email_id ats _

lemma store_email_items (msg : EmailMsg) (db : DB) :
    (store_email_in_database msg db).1.items = db.items :=
  storeAttach_fold_items db.nextEmailId msg.attachments _

lemma store_email_nextItemId (msg : EmailMsg) (db : DB) :
    (store_email_in_database msg db).1.nextItemId = db.nextItemId :=
  storeAttach_fold_nextItemId db.nextEmailId msg.attachments _

lemma store_failed_items (gid : String) (db : DB) :
    (store_failed_email gid db).items = db.items := by
  unfold store_failed_email
  split
  · rfl
  · rfl

lemma store_failed_nextItemId (gid : String) (db : DB) :
    (store_failed_email gid db).nextItemId = db.nextItemId := by
  unfold store_failed_email
  split
  · rfl
  · rfl

lemma processMessage_inv (msg : EmailMsg) (cls : Except Unit Classification)
    (db : DB) (h : ItemsInv db) : ItemsInv (processMessage msg cls db) := by
  unfold processMessage
  by_cases hex : db.emails.any (fun e => e.gmail_id = msg.gmail_id) = true
  · rw [if_pos hex]
    exact h
  · rw [if_neg hex]
    rcases cls with _ | result
    · exact h
    · show ItemsInv (if (!result.privacy_check_passed) = true then
          store_failed_email msg.gmail_id db
        else processItems (store_email_in_database msg db).2 result.items
          (markPrivacyPassed (store_email_in_database msg db).2
            (store_email_in_database msg db).1))
      cases hpc : result.privacy_check_passed with
      | false =>
        show ItemsInv (store_failed_email msg.gmail_id db)
        exact ItemsInv_of_eq (store_failed_items _ _) (store_failed_nextItemId _ _) h
      | true =>
        show ItemsInv (processItems (store_email_in_database msg db).2 result.items
          (markPrivacyPassed (store_email_in_database msg db).2
            (store_email_in_database msg db).1))
        apply processItems_inv
        exact ItemsInv_of_eq (store_email_items msg db) (store_email_nextItemId msg db) h

/-- An ingestion run: the per-message loop folded over the fetched
messages with their classification outcomes, from an empty database. -/
def runIngestion (msgs : List (EmailMsg × Except Unit Classification)) : DB :=
  msgs.foldl (fun db mc => processMessage mc.1 mc.2 db) emptyDB

lemma foldl_processMessage_inv :
    ∀ (msgs : List (EmailMsg × Except Unit Classification)) (db : DB),
      ItemsInv db →
      ItemsInv (msgs.foldl (fun db mc => processMessage mc.1 mc.2 db) db)
  | [], _, h => h
  | mc :: msgs, db, h =>
    foldl_processMessage_inv msgs _ (processMessage_inv mc.1 mc.2 db h)

lemma runIngestion_inv (msgs : List (EmailMsg × Except Unit Classification)) :
    ItemsInv (runIngestion msgs) :=
  foldl_processMessage_inv msgs emptyDB
    ⟨fun r hr => absurd hr (List.not_mem_nil r),
     fun r hr => absurd hr (List.not_mem_nil r),
     fun r hr => absurd hr (List.not_mem_nil r)⟩

/-! ## Claim C2 -/

/-- Three current items to feed two chained supersessions. -/
def exChainDB0 : DB :=
  DB.mk [] []
    [ItemRow.mk 0 0 "a" none [] true none, ItemRow.mk 1 0 "a" none [] true none,
     ItemRow.mk 2 0 "a" none [] true none]
    [] 0 0 3

/-- The state after `supersede(0, 1)` then `supersede(1, 2)`. -/
def exChainDB2 : DB := supersede_item 1 2 (supersede_item 0 1 exChainDB0)

/-- C2: the claim states that `superseded_by` always points directly to a
current item (chains collapsed at write time).  False: after
`supersede(0,1); supersede(1,2)` item 0 is non-current and points to item
1, which is itself non-current — the engine never rewrites earlier
pointers. -/
theorem C2_counterexample :
    ∃ r ∈ exChainDB2.items, r.is_current = false ∧ r.superseded_by = some 1 ∧
      ∀ r2 ∈ exChainDB2.items, r2.id = 1 → r2.is_current = false := by
  decide

/-- C2 (amended): after any ingestion run, every non-current item has
`superseded_by` set to the id of a distinct, existing item — the item that
directly replaced it, which was current at write time but may itself have
been superseded later; supersession chains are not collapsed. -/
theorem C2_superseded_by_uncollapsed
    (msgs : List (EmailMsg × Except Unit Classification)) :
    ∀ r ∈ (runIngestion msgs).items, r.is_current = false →
      ∃ j, r.superseded_by = some j ∧ j ≠ r.id ∧
        ∃ r2 ∈ (runIngestion msgs).items, r2.id = j :=
  (runIngestion_inv msgs).2.2

/-- A run in which one email yields two identical items, so the second
supersedes the first. -/
def exMsgDup : EmailMsg := EmailMsg.mk "g2" "s" "f" none "body" []

def exClsDup : Classification :=
  Classification.mk true none
    [ExtractedItem.mk "abcdef" none [] [], ExtractedItem.mk "abcdef" none [] []]

def exMsgs : List (EmailMsg × Except Unit Classification) := [(exMsgDup, .ok exClsDup)]

/-- The superseded first item of that run. -/
def exSupRow : ItemRow := ItemRow.mk 0 0 "abcdef" none [] false (some 1)

/-- C2 witness: the superseded item of the concrete run points to the
distinct, existing item 1. -/
theorem C2_witness :
    ∃ j, exSupRow.superseded_by = some j ∧ j ≠ exSupRow.id ∧
      ∃ r2 ∈ (runIngestion exMsgs).items, r2.id = j :=
  C2_superseded_by_uncollapsed exMsgs exSupRow (by decide) (by decide)

/-! ## Claim C9 -/

/-- C9: the Match Resolver runs before the insert in `save_item`, so a new
item never matches itself and no item's `superseded_by` ever points to the
item itself, on any ingestion run. -/
theorem C9_no_self_supersession
    (msgs : List (EmailMsg × Except Unit Classification)) :
    ∀ r ∈ (runIngestion msgs).items, r.superseded_by ≠ some r.id := by
  intro r hr
  have h := runIngestion_inv msgs
  cases hc : r.is_current with
  | true =>
    rw [h.2.1 r hr hc]
    simp
  | false =>
    rcases h.2.2 r hr hc with ⟨j, hj1, hj2, _⟩
    rw [hj1]
    intro hcontra
    exact hj2 (Option.some.inj hcontra)

/-- C9 witness: the superseded item of the concrete run does not point to
itself. -/
theorem C9_witness :
    exSupRow.superseded_by ≠ some exSupRow.id :=
  C9_no_self_supersession exMsgs exSupRow (by decide)

/-! ## Claim C8: end-date backfill lemmas -/

def NodupIds (rows : List BFItem) : Prop := (rows.map (fun r => r.id)).Nodup

lemma bfUpdate_mem_of_ne (acc : List BFItem) (i : Nat) (e : String) (r : BFItem)
    (hr : r ∈ acc) (hne : r.id ≠ i) : r ∈ bfUpdate acc i e := by
  unfold bfUpdate
  refine List.mem_map.mpr ⟨r, hr, ?_⟩
  rw [if_neg hne]

lemma bfUpdate_mem_self (acc : List BFItem) (i : Nat) (e : String) (r : BFItem)
    (hr : r ∈ acc) (hid : r.id = i) : { r with date_end := some e } ∈ bfUpdate acc i e := by
  unfold bfUpdate
  refine List.mem_map.mpr ⟨r, hr, ?_⟩
  rw [if_pos hid]

lemma bfStep_mem_of_ne (f : String → Option String → Option String)
    (acc : List BFItem) (item r : BFItem) (hr : r ∈ acc) (hne : r.id ≠ item.id) :
    r ∈ bfStep f acc item := by
  unfold bfStep
  rcases f item.content item.date_start with _ | e
  · exact hr
  · rcases item.date_start with _ | s
    · exact bfUpdate_mem_of_ne acc item.id e r hr hne
    · show r ∈ (if pyStrLt e s then acc else bfUpdate acc item.id e)
      by_cases hlt : pyStrLt e s = true
      · rw [if_pos hlt]
        exact hr
      · rw [if_neg hlt]
        exact bfUpdate_mem_of_ne acc item.id e r hr hne

lemma bfStep_self_conflict (f : String → Option String → Option String)
    (acc : List BFItem) (x : BFItem) (e s : String)
    (hf : f x.content x.date_start = some e) (hs : x.date_start = some s)
    (hlt : pyStrLt e s = true) : bfStep f acc x = acc := by
  unfold bfStep
  rw [hf, hs]
  show (if pyStrLt e s then acc else bfUpdate acc x.id e) = acc
  rw [if_pos hlt]

lemma bfStep_self_update (f : String → Option String → Option String)
    (acc : List BFItem) (x : BFItem) (e : String)
    (hf : f x.content x.date_start = some e)
    (hnc : ∀ s, x.date_start = some s → ¬ pyStrLt e s = true) :
    bfStep f acc x = bfUpdate acc x.id e := by
  unfold bfStep
  rw [hf]
  rcases hd : x.date_start with _ | s
  · rfl
  · show (if pyStrLt e s then acc else bfUpdate acc x.id e) = bfUpdate acc x.id e
    rw [if_neg (hnc s hd)]

lemma bfFold_mem_of_ne (f : String → Option String → Option String) :
    ∀ (M acc : List BFItem) (r : BFItem),
      r ∈ acc → (∀ m ∈ M, m.id ≠ r.id) → r ∈ M.foldl (bfStep f) acc
  | [], _, _, hr, _ => hr
  | m :: M, acc, r, hr, hm =>
    bfFold_mem_of_ne f M _ r
      (bfStep_mem_of_ne f acc m r hr (fun h => hm m (List.mem_cons_self m M) h.symm))
      (fun v hv => hm v (List.mem_cons_of_mem m hv))

lemma bfFold_conflict (f : String → Option String → Option String)
    (x : BFItem) (e s : String) (hf : f x.content x.date_start = some e)
    (hs : x.date_start = some s) (hlt : pyStrLt e s = true) :
    ∀ (M acc : List BFItem),
      (∀ m ∈ M, m.id = x.id → m = x) → x ∈ acc → x ∈ M.foldl (bfStep f) acc
  | [], _, _, hx => hx
  | m :: M, acc, hm, hx => by
    by_cases hid : m.id = x.id
    · have hmx : m = x := hm m (List.mem_cons_self m M) hid
      show x ∈ M.foldl (bfStep f) (bfStep f acc m)
      rw [hmx, bfStep_self_conflict f acc x e s hf hs hlt]
      exact bfFold_conflict f x e s hf hs hlt M acc
        (fun v hv => hm v (List.mem_cons_of_mem m hv)) hx
    · show x ∈ M.foldl (bfStep f) (bfStep f acc m)
      exact bfFold_conflict f x e s hf hs hlt M _
        (fun v hv => hm v (List.mem_cons_of_mem m hv))
        (bfStep_mem_of_ne f acc m x hx (fun h => hid h.symm))

lemma bfFold_update (f : String → Option String → Option String)
    (x : BFItem) (e : String) (hf : f x.content x.date_start = some e)
    (hnc : ∀ s, x.date_start = some s → ¬ pyStrLt e s = true) :
    ∀ (M1 M2 acc : List BFItem),
      (∀ m ∈ M1, m.id ≠ x.id) → (∀ m ∈ M2, m.id ≠ x.id) → x ∈ acc →
      { x with date_end := some e } ∈ (M1 ++ x :: M2).foldl (bfStep f) acc
  | [], M2, acc, _, hm2, hx => by
    show { x with date_end := some e } ∈ M2.foldl (bfStep f) (bfStep f acc x)
    rw [bfStep_self_update f acc x e hf hnc]
    apply bfFold_mem_of_ne f M2
    · exact bfUpdate_mem_self acc x.id e x hx rfl
    · intro m hm
      exact hm2 m hm
  | m :: M1, M2, acc, hm1, hm2, hx => by
    show { x with date_end := some e } ∈
      ((M1 ++ x :: M2).foldl (bfStep f) (bfStep f acc m))
    exact bfFold_update f x e hf hnc M1 M2 _
      (fun v hv => hm1 v (List.mem_cons_of_mem m hv)) hm2
      (bfStep_mem_of_ne f acc m x hx
        (fun h => hm1 m (List.mem_cons_self m M1) h.symm))

lemma bfUpdate_map_id (acc : List BFItem) (i : Nat) (e : String) :
    (bfUpdate acc i e).map (fun r => r.id) = acc.map (fun r => r.id) := by
  unfold bfUpdate
  rw [List.map_map]
  apply List.map_congr_left
  intro r _
  by_cases h : r.id = i
  · simp [h]
  · simp [h]

lemma bfStep_map_id (f : String → Option String → Option String)
    (acc : List BFItem) (item : BFItem) :
    (bfStep f acc item).map (fun r => r.id) = acc.map (fun r => r.id) := by
  unfold bfStep
  rcases f item.content item.date_start with _ | e
  · rfl
  · rcases item.date_start with _ | s
    · exact bfUpdate_map_id acc item.id e
    · show ((if pyStrLt e s then acc else bfUpdate acc item.id e).map (fun r => r.id)) = _
      by_cases hlt : pyStrLt e s = true
      · rw [if_pos hlt]
      · rw [if_neg hlt]
        exact bfUpdate_map_id acc item.id e

lemma bfFold_map_id (f : String → Option String → Option String) :
    ∀ (M acc : List BFItem),
      (M.foldl (bfStep f) acc).map (fun r => r.id) = acc.map (fun r => r.id)
  | [], _ => rfl
  | m :: M, acc => by
    show ((M.foldl (bfStep f) (bfStep f acc m)).map (fun r => r.id)) = _
    rw [bfFold_map_id f M (bfStep f acc m), bfStep_map_id]

/-- C8: during the end-date backfill, an item whose extracted end date is
strictly earlier than its start date is skipped and kept completely
unchanged in the table (ids stay unique, so the unchanged row is the only
row with its id), and the pass still applies the update to every other
selected item without a conflict. -/
theorem C8_end_date_conflict_skipped (f : String → Option String → Option String)
    (rows : List BFItem) (hnd : NodupIds rows) :
    NodupIds (backfill_end_dates f rows) ∧
    (∀ r ∈ rows, ∀ e s, r.date_end = none → f r.content r.date_start = some e →
      r.date_start = some s → pyStrLt e s = true → r ∈ backfill_end_dates f rows) ∧
    (∀ r ∈ rows, ∀ e, r.date_end = none → f r.content r.date_start = some e →
      (∀ s, r.date_start = some s → ¬ pyStrLt e s = true) →
      { r with date_end := some e } ∈ backfill_end_dates f rows) := by
  have hndM : ((rows.filter (fun r => r.date_end = none)).map (fun r => r.id)).Nodup :=
    List.Nodup.sublist (List.Sublist.map _ (List.filter_sublist rows)) hnd
  refine ⟨?_, ?_, ?_⟩
  · unfold NodupIds backfill_end_dates
    rw [bfFold_map_id]
    exact hnd
  · intro r hr e s hde hf hds hlt
    unfold backfill_end_dates
    apply bfFold_conflict f r e s hf hds hlt
    · intro m hm hmid
      have hrM : r ∈ rows.filter (fun x => x.date_end = none) :=
        List.mem_filter.mpr ⟨hr, by simp [hde]⟩
      exact List.inj_on_of_nodup_map hndM hm hrM hmid
    · exact hr
  · intro r hr e hde hf hnc
    have hrM : r ∈ rows.filter (fun x => x.date_end = none) :=
      List.mem_filter.mpr ⟨hr, by simp [hde]⟩
    rcases List.append_of_mem hrM with ⟨M1, M2, hsplit⟩
    have hmapnd := hndM
    rw [hsplit, List.map_append, List.map_cons] at hmapnd
    rw [List.nodup_append] at hmapnd
    obtain ⟨_, hcons, hdisj⟩ := hmapnd
    unfold backfill_end_dates
    rw [hsplit]
    apply bfFold_update f r e hf hnc
    · intro m hm
      intro hmid
      exact hdisj (List.mem_map_of_mem _ hm)
        (by rw [hmid]; exact List.mem_cons_self _ _)
    · intro m hm hmid
      have : r.id ∈ M2.map (fun x => x.id) := by
        rw [← hmid]
        exact List.mem_map_of_mem _ hm
      exact (List.nodup_cons.mp hcons).1 this
    · exact hr

/-- Rows and extraction for the C8 witness: item 0 has a conflicting
extracted end date, item 1 a consistent one. -/
def exBFRows : List BFItem :=
  [BFItem.mk 0 "c1" (some "2025-02-01") none, BFItem.mk 1 "c2" (some "2025-01-01") none]

def exBFExtract : String → Option String → Option String :=
  fun c _ => if c = "c1" then some "2025-01-01" else some "2025-03-01"

/-! ## Claim C7: the matching loop on a pair of equal strings

For `SequenceMatcher(None, a, a)` the first `find_longest_match` call
returns the full diagonal block `(0, 0, len(a))`: every best-block update
in the main loop happens on the diagonal (an off-diagonal chain never
exceeds a diagonal chain already scanned), and the extension loops then
stretch the diagonal block across the whole region.  `npr l j` is the
length of the maximal run of non-popular characters ending at `j` — the
diagonal chain value at row `j`. -/

def npr (l : List Char) : Nat → Nat
  | 0 => if bPopular l (chAt l 0) then 0 else 1
  | j + 1 => if bPopular l (chAt l (j + 1)) then 0 else npr l j + 1

lemma npr_le (l : List Char) : ∀ j, npr l j ≤ j + 1
  | 0 => by
    unfold npr
    split
    · omega
    · omega
  | j + 1 => by
    have ih := npr_le l j
    unfold npr
    split
    · omega
    · omega

lemma npr_popular (l : List Char) (j : Nat) (h : bPopular l (chAt l j) = true) :
    npr l j = 0 := by
  cases j with
  | zero =>
    unfold npr
    rw [if_pos h]
  | succ t =>
    unfold npr
    rw [if_pos h]

lemma npr_nonpopular_zero (l : List Char) (h : bPopular l (chAt l 0) = false) :
    npr l 0 = 1 := by
  unfold npr
  rw [if_neg (by simp [h])]

lemma npr_nonpopular_succ (l : List Char) (t : Nat)
    (h : bPopular l (chAt l (t + 1)) = false) : npr l (t + 1) = npr l t + 1 := by
  conv_lhs => rw [npr]
  rw [if_neg (by simp [h])]

lemma npr_pos (l : List Char) (j : Nat) (h : bPopular l (chAt l j) = false) :
    1 ≤ npr l j := by
  cases j with
  | zero =>
    rw [npr_nonpopular_zero l h]
  | succ t =>
    rw [npr_nonpopular_succ l t h]
    omega

lemma mem_b2j (l : List Char) (c : Char) (j : Nat) :
    j ∈ b2j l c ↔ bPopular l c = false ∧ j < l.length ∧ chAt l j = c := by
  unfold b2j
  by_cases h : bPopular l c = true
  · rw [if_pos h]
    simp [h]
  · have hf : bPopular l c = false := by
      cases hb : bPopular l c
      · rfl
      · exact absurd hb h
    rw [if_neg h]
    simp [hf, List.mem_filter, List.mem_range]

lemma b2j_sorted (l : List Char) (c : Char) : (b2j l c).Pairwise (· < ·) := by
  unfold b2j
  split
  · exact List.Pairwise.nil
  · exact (List.pairwise_lt_range _).filter _

lemma sorted_split_of_mem {L : List Nat} {x : Nat} (hmem : x ∈ L)
    (hsort : L.Pairwise (· < ·)) :
    ∃ L1 L2, L = L1 ++ x :: L2 ∧ (∀ j ∈ L1, j < x) ∧ (∀ j ∈ L2, x < j) := by
  rcases List.append_of_mem hmem with ⟨L1, L2, rfl⟩
  rw [List.pairwise_append] at hsort
  obtain ⟨_, hcons, hcross⟩ := hsort
  refine ⟨L1, L2, rfl, ?_, ?_⟩
  · intro j hj
    exact hcross j hj x (List.mem_cons_self x L2)
  · intro j hj
    exact (List.pairwise_cons.mp hcons).1 j hj

lemma jqGet_le (m : Nat → Nat) (b : Nat) (h : ∀ j, m j ≤ b) (j : Nat) :
    jqGet m j ≤ b := by
  unfold jqGet
  split
  · omega
  · exact h _

/-- Chain bound against the position's own run: the value recorded at a
non-popular position `x` never exceeds `npr l x`. -/
lemma kval_le_npr (l : List Char) (m : Nat → Nat)
    (hm : ∀ j, m j ≤ npr l j) (x : Nat) (hx : bPopular l (chAt l x) = false) :
    jqGet m x + 1 ≤ npr l x := by
  cases x with
  | zero =>
    unfold jqGet
    rw [if_pos rfl, npr_nonpopular_zero l hx]
  | succ t =>
    unfold jqGet
    rw [if_neg (Nat.succ_ne_zero t), npr_nonpopular_succ l t hx]
    have h2 := hm t
    simp only [Nat.add_sub_cancel]
    omega

/-- Chain bound against the current row's run: every chain through row `s`
is bounded by `npr l s` when `a[s]` is non-popular. -/
lemma kval_le_npr_row (l : List Char) (m : Nat → Nat) (s : Nat)
    (hm5 : ∀ j, m j ≤ (if s = 0 then 0 else npr l (s - 1)))
    (hs : bPopular l (chAt l s) = false) (x : Nat) :
    jqGet m x + 1 ≤ npr l s := by
  have hb : jqGet m x ≤ (if s = 0 then 0 else npr l (s - 1)) := jqGet_le m _ hm5 x
  cases s with
  | zero =>
    rw [npr_nonpopular_zero l hs]
    simp at hb
    omega
  | succ t =>
    rw [npr_nonpopular_succ l t hs]
    simp only [Nat.succ_ne_zero, if_false, Nat.add_sub_cancel] at hb
    omega

/-- The diagonal chain value at row `s` is exactly `npr l s`. -/
lemma kval_eq_npr_diag (l : List Char) (m : Nat → Nat) (s : Nat)
    (hm3b : ∀ t, t + 1 = s → m t = npr l t)
    (hs : bPopular l (chAt l s) = false) :
    jqGet m s + 1 = npr l s := by
  cases s with
  | zero =>
    unfold jqGet
    rw [if_pos rfl, npr_nonpopular_zero l hs]
  | succ t =>
    unfold jqGet
    rw [if_neg (Nat.succ_ne_zero t), npr_nonpopular_succ l t hs]
    have h2 := hm3b t rfl
    simp only [Nat.add_sub_cancel]
    omega

lemma flmInner_cons_inrange (m : Nat → Nat) (n s j : Nat) (js : List Nat)
    (new : Nat → Nat) (best : FlmBest) (hj : j < n) :
    flmInner m 0 n s (j :: js) (new, best) =
      flmInner m 0 n s js
        (fun x => if x = j then jqGet m j + 1 else new x,
         if best.size < jqGet m j + 1 then
           FlmBest.mk (s + 1 - (jqGet m j + 1)) (j + 1 - (jqGet m j + 1)) (jqGet m j + 1)
         else best) := by
  unfold flmInner
  rw [if_neg (Nat.not_lt_zero j), if_neg (not_le.mpr hj)]
  cases js with
  | nil => rfl
  | cons j2 js2 => rfl

lemma flmInner_map (m : Nat → Nat) (n s : Nat) :
    ∀ (js : List Nat) (new : Nat → Nat) (best : FlmBest),
      (∀ j ∈ js, j < n) →
      (flmInner m 0 n s js (new, best)).1 =
        fun x => if x ∈ js then jqGet m x + 1 else new x
  | [], new, best, _ => by
    funext x
    simp [flmInner]
  | j :: js, new, best, h => by
    rw [flmInner_cons_inrange m n s j js new best (h j (List.mem_cons_self j js))]
    rw [flmInner_map m n s js _ _ (fun v hv => h v (List.mem_cons_of_mem j hv))]
    funext x
    by_cases hx : x ∈ js
    · rw [if_pos hx, if_pos (List.mem_cons_of_mem j hx)]
    · rw [if_neg hx]
      by_cases hxj : x = j
      · rw [if_pos hxj, if_pos (by rw [hxj]; exact List.mem_cons_self j js), hxj]
      · rw [if_neg hxj, if_neg (by
          rintro hmem
          rcases List.mem_cons.mp hmem with h1 | h1
          · exact hxj h1
          · exact hx h1)]

lemma flmInner_best_no_update (m : Nat → Nat) (n s : Nat) :
    ∀ (js : List Nat) (new : Nat → Nat) (best : FlmBest),
      (∀ j ∈ js, j < n) → (∀ j ∈ js, jqGet m j + 1 ≤ best.size) →
      (flmInner m 0 n s js (new, best)).2 = best
  | [], _, _, _, _ => rfl
  | j :: js, new, best, h, hk => by
    rw [flmInner_cons_inrange m n s j js new best (h j (List.mem_cons_self j js))]
    rw [if_neg (not_lt.mpr (hk j (List.mem_cons_self j js)))]
    exact flmInner_best_no_update m n s js _ best
      (fun v hv => h v (List.mem_cons_of_mem j hv))
      (fun v hv => hk v (List.mem_cons_of_mem j hv))

lemma flmInner_append (m : Nat → Nat) (n s : Nat) :
    ∀ (xs ys : List Nat) (new : Nat → Nat) (best : FlmBest),
      (∀ j ∈ xs, j < n) →
      flmInner m 0 n s (xs ++ ys) (new, best) =
        flmInner m 0 n s ys (flmInner m 0 n s xs (new, best))
  | [], _, _, _, _ => rfl
  | j :: xs, ys, new, best, h => by
    rw [List.cons_append]
    rw [flmInner_cons_inrange m n s j (xs ++ ys) new best (h j (List.mem_cons_self j _))]
    rw [flmInner_cons_inrange m n s j xs new best (h j (List.mem_cons_self j _))]
    exact flmInner_append m n s xs ys _ _ (fun v hv => h v (List.mem_cons_of_mem j hv))

/-- Invariant of the main matching loop on `(l, l)` over the square region
`(0, n, 0, n)` after the rows `[0, s)` have been processed: the best block
is diagonal and bounded by the rows seen, dominates every completed run,
and the row map holds chain values bounded by the runs. -/
def DiagInv (l : List Char) (s : Nat) (st : (Nat → Nat) × FlmBest) : Prop :=
  st.2.j = st.2.i ∧
  st.2.i + st.2.size ≤ s ∧
  (∀ t, t < s → npr l t ≤ st.2.size) ∧
  (∀ j, st.1 j ≤ npr l j) ∧
  (∀ j, st.1 j ≤ (if s = 0 then 0 else npr l (s - 1))) ∧
  (∀ t, t + 1 = s → st.1 t = npr l t)

lemma diagInv_step (l : List Char) (s : Nat) (m : Nat → Nat) (best : FlmBest)
    (hs : s < l.length) (h : DiagInv l s (m, best)) :
    DiagInv l (s + 1) (flmRow l l 0 l.length (m, best) s) := by
  obtain ⟨hdiag0, hib0, hK40, hK3a0, hK50, hK3b0⟩ := h
  have hdiag : best.j = best.i := hdiag0
  have hib : best.i + best.size ≤ s := hib0
  have hK4 : ∀ t, t < s → npr l t ≤ best.size := hK40
  have hK3a : ∀ j, m j ≤ npr l j := hK3a0
  have hK5 : ∀ j, m j ≤ (if s = 0 then 0 else npr l (s - 1)) := hK50
  have hK3b : ∀ t, t + 1 = s → m t = npr l t := hK3b0
  by_cases hpop : bPopular l (chAt l s) = true
  · have hb2j : b2j l (chAt l s) = [] := by
      unfold b2j
      rw [if_pos hpop]
    show DiagInv l (s + 1)
      (flmInner m 0 l.length s (b2j l (chAt l s)) (fun _ => 0, best))
    rw [hb2j]
    refine ⟨hdiag, ?_, ?_, ?_, ?_, ?_⟩
    · show best.i + best.size ≤ s + 1
      omega
    · intro t ht
      show npr l t ≤ best.size
      rcases Nat.lt_succ_iff_lt_or_eq.mp ht with h2 | h2
      · exact hK4 t h2
      · rw [h2, npr_popular l s hpop]
        omega
    · intro j
      exact Nat.zero_le _
    · intro j
      exact Nat.zero_le _
    · intro t ht
      have ht2 : t = s := by omega
      show (0 : Nat) = npr l t
      rw [ht2, npr_popular l s hpop]
  · have hpopf : bPopular l (chAt l s) = false := by
      cases hb : bPopular l (chAt l s)
      · rfl
      · exact absurd hb hpop
    have hmem : s ∈ b2j l (chAt l s) := (mem_b2j l _ s).mpr ⟨hpopf, hs, rfl⟩
    rcases sorted_split_of_mem hmem (b2j_sorted l (chAt l s)) with
      ⟨P1, P2, hsplit, hpre, hpost⟩
    have hall : ∀ j ∈ b2j l (chAt l s),
        j < l.length ∧ bPopular l (chAt l j) = false := by
      intro j hj
      have h2 := (mem_b2j l _ j).mp hj
      refine ⟨h2.2.1, ?_⟩
      rw [h2.2.2]
      exact hpopf
    have hallP1 : ∀ j ∈ P1, j < l.length ∧ bPopular l (chAt l j) = false := by
      intro j hj
      exact hall j (by rw [hsplit]; exact List.mem_append_left _ hj)
    have hallP2 : ∀ j ∈ P2, j < l.length ∧ bPopular l (chAt l j) = false := by
      intro j hj
      exact hall j (by
        rw [hsplit]
        exact List.mem_append_right _ (List.mem_cons_of_mem s hj))
    show DiagInv l (s + 1)
      (flmInner m 0 l.length s (b2j l (chAt l s)) (fun _ => 0, best))
    rw [hsplit,
      flmInner_append m l.length s P1 (s :: P2) _ best (fun j hj => (hallP1 j hj).1)]
    have hpre_k : ∀ j ∈ P1, jqGet m j + 1 ≤ best.size := by
      intro j hj
      exact le_trans (kval_le_npr l m hK3a j (hallP1 j hj).2) (hK4 j (hpre j hj))
    have hA2 : (flmInner m 0 l.length s P1 (fun _ => 0, best)).2 = best :=
      flmInner_best_no_update m l.length s P1 _ best (fun j hj => (hallP1 j hj).1) hpre_k
    have hA1 : (flmInner m 0 l.length s P1 (fun _ => 0, best)).1 =
        fun x => if x ∈ P1 then jqGet m x + 1 else 0 :=
      flmInner_map m l.length s P1 _ best (fun j hj => (hallP1 j hj).1)
    rw [(Prod.mk.eta
      (p := flmInner m 0 l.length s P1 (fun _ => 0, best))).symm, hA1, hA2]
    rw [flmInner_cons_inrange m l.length s s P2 _ best hs]
    have hk : jqGet m s + 1 = npr l s := kval_eq_npr_diag l m s hK3b hpopf
    have hK1 : 1 ≤ npr l s := npr_pos l s hpopf
    have hKle : npr l s ≤ s + 1 := npr_le l s
    have hrowk : ∀ x, jqGet m x + 1 ≤ npr l s := kval_le_npr_row l m s hK5 hpopf
    have hB2size : npr l s ≤ (if best.size < jqGet m s + 1 then
        FlmBest.mk (s + 1 - (jqGet m s + 1)) (s + 1 - (jqGet m s + 1)) (jqGet m s + 1)
      else best).size := by
      by_cases hupd : best.size < jqGet m s + 1
      · rw [if_pos hupd]
        show npr l s ≤ jqGet m s + 1
        omega
      · rw [if_neg hupd]
        omega
    have hB2mono : best.size ≤ (if best.size < jqGet m s + 1 then
        FlmBest.mk (s + 1 - (jqGet m s + 1)) (s + 1 - (jqGet m s + 1)) (jqGet m s + 1)
      else best).size := by
      by_cases hupd : best.size < jqGet m s + 1
      · rw [if_pos hupd]
        show best.size ≤ jqGet m s + 1
        omega
      · rw [if_neg hupd]
    have hpost_k : ∀ j ∈ P2, jqGet m j + 1 ≤ (if best.size < jqGet m s + 1 then
        FlmBest.mk (s + 1 - (jqGet m s + 1)) (s + 1 - (jqGet m s + 1)) (jqGet m s + 1)
      else best).size := by
      intro j hj
      exact le_trans (hrowk j) hB2size
    have hF2 := flmInner_best_no_update m l.length s P2
      (fun x => if x = s then jqGet m s + 1 else if x ∈ P1 then jqGet m x + 1 else 0)
      _ (fun j hj => (hallP2 j hj).1) hpost_k
    have hF1 := flmInner_map m l.length s P2
      (fun x => if x = s then jqGet m s + 1 else if x ∈ P1 then jqGet m x + 1 else 0)
      (if best.size < jqGet m s + 1 then
        FlmBest.mk (s + 1 - (jqGet m s + 1)) (s + 1 - (jqGet m s + 1)) (jqGet m s + 1)
      else best) (fun j hj => (hallP2 j hj).1)
    refine ⟨?_, ?_, ?_, ?_, ?_, ?_⟩
    · rw [hF2]
      by_cases hupd : best.size < jqGet m s + 1
      · rw [if_pos hupd]
      · rw [if_neg hupd]
        exact hdiag
    · rw [hF2]
      by_cases hupd : best.size < jqGet m s + 1
      · rw [if_pos hupd]
        show (s + 1 - (jqGet m s + 1)) + (jqGet m s + 1) ≤ s + 1
        omega
      · rw [if_neg hupd]
        show best.i + best.size ≤ s + 1
        omega
    · intro t ht
      rw [hF2]
      rcases Nat.lt_succ_iff_lt_or_eq.mp ht with h2 | h2
      · exact le_trans (hK4 t h2) hB2mono
      · rw [h2]
        exact hB2size
    · intro j
      rw [hF1]
      beta_reduce
      by_cases hj2 : j ∈ P2
      · rw [if_pos hj2]
        exact kval_le_npr l m hK3a j (hallP2 j hj2).2
      · rw [if_neg hj2]
        by_cases hjs : j = s
        · rw [if_pos hjs, hjs, hk]
        · rw [if_neg hjs]
          by_cases hj1 : j ∈ P1
          · rw [if_pos hj1]
            exact kval_le_npr l m hK3a j (hallP1 j hj1).2
          · rw [if_neg hj1]
            exact Nat.zero_le _
    · intro j
      rw [hF1]
      have hifgoal : (if s + 1 = 0 then 0 else npr l (s + 1 - 1)) = npr l s := by
        rw [if_neg (Nat.succ_ne_zero s), Nat.add_sub_cancel]
      rw [hifgoal]
      beta_reduce
      by_cases hj2 : j ∈ P2
      · rw [if_pos hj2]
        exact hrowk j
      · rw [if_neg hj2]
        by_cases hjs : j = s
        · rw [if_pos hjs, hk]
        · rw [if_neg hjs]
          by_cases hj1 : j ∈ P1
          · rw [if_pos hj1]
            exact hrowk j
          · rw [if_neg hj1]
            exact Nat.zero_le _
    · intro t ht
      have ht2 : t = s := by omega
      rw [hF1, ht2]
      beta_reduce
      have hsP2 : s ∉ P2 := fun hmem2 => absurd (hpost s hmem2) (lt_irrefl s)
      rw [if_neg hsP2, if_pos rfl, hk]

lemma diagInv_zero (l : List Char) :
    DiagInv l 0 ((fun _ => 0 : Nat → Nat), FlmBest.mk 0 0 0) := by
  refine ⟨rfl, ?_, ?_, ?_, ?_, ?_⟩
  · show (0 : Nat) + 0 ≤ 0
    omega
  · intro t ht
    exact absurd ht (Nat.not_lt_zero t)
  · intro j
    exact Nat.zero_le _
  · intro j
    exact Nat.zero_le _
  · intro t ht
    exact absurd ht (Nat.succ_ne_zero t)

lemma diagInv_fold (l : List Char) :
    ∀ (k s : Nat) (st : (Nat → Nat) × FlmBest), s + k ≤ l.length →
      DiagInv l s st →
      DiagInv l (s + k) ((List.range' s k).foldl (flmRow l l 0 l.length) st)
  | 0, _, _, _, h => h
  | k + 1, s, st, hle, h => by
    have hstep : DiagInv l (s + 1) (flmRow l l 0 l.length st s) := by
      obtain ⟨m, best⟩ := st
      exact diagInv_step l s m best (by omega) h
    have hrec := diagInv_fold l k (s + 1) (flmRow l l 0 l.length st s)
      (by omega) hstep
    have harith : s + (k + 1) = (s + 1) + k := by omega
    rw [harith]
    show DiagInv l ((s + 1) + k)
      ((List.range' (s + 1) k).foldl (flmRow l l 0 l.length)
        (flmRow l l 0 l.length st s))
    exact hrec

lemma flmLoop_self_diag (l : List Char) :
    ∃ b0 bs, (flmLoop l l 0 l.length 0 l.length).2 = FlmBest.mk b0 b0 bs ∧
      b0 + bs ≤ l.length := by
  have h := diagInv_fold l l.length 0 ((fun _ => 0 : Nat → Nat), FlmBest.mk 0 0 0)
    (by omega) (diagInv_zero l)
  have heq : flmLoop l l 0 l.length 0 l.length =
      (List.range' 0 l.length).foldl (flmRow l l 0 l.length)
        ((fun _ => 0 : Nat → Nat), FlmBest.mk 0 0 0) := by
    unfold flmLoop
    rw [Nat.sub_zero]
  rw [heq]
  obtain ⟨hdiag, hib, _, _, _, _⟩ := h
  refine ⟨((List.range' 0 l.length).foldl (flmRow l l 0 l.length)
      ((fun _ => 0 : Nat → Nat), FlmBest.mk 0 0 0)).2.i,
    ((List.range' 0 l.length).foldl (flmRow l l 0 l.length)
      ((fun _ => 0 : Nat → Nat), FlmBest.mk 0 0 0)).2.size, ?_, ?_⟩
  · conv_lhs => rw [show ((List.range' 0 l.length).foldl (flmRow l l 0 l.length)
        ((fun _ => 0 : Nat → Nat), FlmBest.mk 0 0 0)).2 =
      FlmBest.mk ((List.range' 0 l.length).foldl (flmRow l l 0 l.length)
        ((fun _ => 0 : Nat → Nat), FlmBest.mk 0 0 0)).2.i
        ((List.range' 0 l.length).foldl (flmRow l l 0 l.length)
        ((fun _ => 0 : Nat → Nat), FlmBest.mk 0 0 0)).2.j
        ((List.range' 0 l.length).foldl (flmRow l l 0 l.length)
        ((fun _ => 0 : Nat → Nat), FlmBest.mk 0 0 0)).2.size from rfl]
    rw [hdiag]
  · omega

lemma extendLeft_self_diag (l : List Char) : ∀ (bi bs : Nat),
    extendLeft l l 0 0 bi bi bs = (0, 0, bs + bi)
  | 0, bs => by
    rw [Nat.add_zero]
    rfl
  | bi + 1, bs => by
    unfold extendLeft
    rw [if_pos ⟨Nat.succ_pos bi, Nat.succ_pos bi, rfl⟩]
    show extendLeft l l 0 0 bi bi (bs + 1) = (0, 0, bs + (bi + 1))
    rw [extendLeft_self_diag l bi (bs + 1),
      show bs + 1 + bi = bs + (bi + 1) from by omega]

lemma extendRightGo_self_diag (l : List Char) (n : Nat) :
    ∀ (fuel bs : Nat), bs + fuel = n → extendRightGo l l 0 0 n n fuel bs = n
  | 0, bs, h => by
    show bs = n
    omega
  | fuel + 1, bs, h => by
    unfold extendRightGo
    rw [if_pos ⟨by omega, by omega, rfl⟩]
    exact extendRightGo_self_diag l n fuel (bs + 1) (by omega)

lemma findLongestMatch_self (l : List Char) :
    findLongestMatch l l 0 l.length 0 l.length = FlmBest.mk 0 0 l.length := by
  obtain ⟨b0, bs, hcore, hle⟩ := flmLoop_self_diag l
  unfold findLongestMatch
  rw [hcore]
  show FlmBest.mk (extendLeft l l 0 0 b0 b0 bs).1 (extendLeft l l 0 0 b0 b0 bs).2.1
      (extendRightGo l l (extendLeft l l 0 0 b0 b0 bs).1
        (extendLeft l l 0 0 b0 b0 bs).2.1 l.length l.length
        (l.length - ((extendLeft l l 0 0 b0 b0 bs).1 + (extendLeft l l 0 0 b0 b0 bs).2.2))
        (extendLeft l l 0 0 b0 b0 bs).2.2) = FlmBest.mk 0 0 l.length
  rw [extendLeft_self_diag l b0 bs]
  show FlmBest.mk 0 0 (extendRightGo l l 0 0 l.length l.length
      (l.length - (0 + (bs + b0))) (bs + b0)) = FlmBest.mk 0 0 l.length
  rw [extendRightGo_self_diag l l.length (l.length - (0 + (bs + b0))) (bs + b0)
    (by omega)]

lemma matchingTotalF_self (l : List Char) :
    matchingTotalF l l (l.length + l.length + 1) 0 l.length 0 l.length = l.length := by
  unfold matchingTotalF
  rw [findLongestMatch_self]
  show (if l.length = 0 then 0
    else (if 0 < 0 ∧ 0 < 0 then
        matchingTotalF l l (l.length + l.length) 0 0 0 0 else 0)
      + l.length
      + (if 0 + l.length < l.length ∧ 0 + l.length < l.length then
          matchingTotalF l l (l.length + l.length) (0 + l.length) l.length
            (0 + l.length) l.length else 0)) = l.length
  by_cases hn : l.length = 0
  · rw [if_pos hn, hn]
  · rw [if_neg hn, if_neg (by omega), if_neg (by omega)]
    omega

lemma seqRatio_self (l : List Char) : seqRatio l l = 1 := by
  by_cases h : l.length = 0
  · unfold seqRatio
    rw [if_pos (by omega)]
  · have hne : l.length + l.length ≠ 0 := by omega
    unfold seqRatio
    show (if l.length + l.length = 0 then 1
      else mkRat (2 * matchingTotalF l l (l.length + l.length + 1) 0 l.length 0 l.length)
        (l.length + l.length)) = 1
    rw [if_neg hne, matchingTotalF_self l, Rat.mkRat_eq_div]
    have h2 : ((l.length + l.length : ℕ) : ℚ) ≠ 0 := Nat.cast_ne_zero.mpr hne
    rw [div_eq_one_iff_eq h2]
    push_cast
    ring

lemma textSimilarityL_self (a : List Char) (h : a ≠ []) : textSimilarityL a a = 1 := by
  unfold textSimilarityL
  rw [if_neg (by
    rintro (h2 | h2)
    · exact h h2
    · exact h h2)]
  exact seqRatio_self (normalizeWs a)

/-- C7: the claim states `similarity(a, b) == similarity(b, a)` for all
texts.  False: the sequence-matching ratio is asymmetric — for `"tide"`
and `"diet"` the ratios are 1/4 and 1/2 (the position table is built from
the second argument, so the matched blocks differ). -/
theorem C7_counterexample :
    text_similarity "tide" "diet" ≠ text_similarity "diet" "tide" := by decide

/-- C7 (amended): `similarity` is a pure deterministic function of its
inputs (it is a Lean function of the two strings, with no state), and
`similarity(a, a) = 1.0` for every non-empty text `a`; symmetry, however,
does not hold in general. -/
theorem C7_self_similarity_one (a : String) (h : a ≠ "") :
    text_similarity a a = 1 := by
  have hd : a.data ≠ [] := by
    intro hd2
    apply h
    cases a with
    | mk d =>
      exact congrArg String.mk hd2
  exact textSimilarityL_self a.data hd

/-- C7 witness: a concrete non-empty string has self-similarity 1. -/
theorem C7_witness : text_similarity "x" "x" = 1 :=
  C7_self_similarity_one "x" (by decide)

/-! ## Claim C10: whitespace-only inputs -/

lemma pyWords_all_space : ∀ l : List Char, (∀ c ∈ l, isPySpace c = true) → pyWords l = []
  | [], _ => rfl
  | c :: cs, h => by
    unfold pyWords
    rw [if_pos (h c (List.mem_cons_self c cs))]
    exact pyWords_all_space cs (fun d hd => h d (List.mem_cons_of_mem c hd))

/-- C10: two non-empty whitespace-only inputs get similarity 1.0 — the
empty-input guard sees the original (truthy) strings, both normalize to
the empty string, and `_calculate_ratio` returns 1.0 on total length 0. -/
theorem C10_whitespace_only_similarity_one (a b : String)
    (ha : a.data ≠ []) (hb : b.data ≠ [])
    (hwa : ∀ c ∈ a.data, isPySpace c = true) (hwb : ∀ c ∈ b.data, isPySpace c = true) :
    text_similarity a b = 1 := by
  unfold text_similarity textSimilarityL
  rw [if_neg (by
    rintro (h | h)
    · exact ha h
    · exact hb h)]
  unfold normalizeWs
  rw [pyWords_all_space a.data hwa, pyWords_all_space b.data hwb]
  rfl

/-- C10 witness: a single space against a double space. -/
theorem C10_witness : text_similarity " " "  " = 1 :=
  C10_whitespace_only_similarity_one " " "  " (by decide) (by decide)
    (by decide) (by decide)

/-- C8 witness: the conflicted row 0 survives unchanged while row 1 is
updated. -/
theorem C8_witness :
    BFItem.mk 0 "c1" (some "2025-02-01") none ∈ backfill_end_dates exBFExtract exBFRows ∧
    BFItem.mk 1 "c2" (some "2025-01-01") (some "2025-03-01") ∈
      backfill_end_dates exBFExtract exBFRows :=
  ⟨(C8_end_date_conflict_skipped exBFExtract exBFRows
      (by unfold NodupIds; decide)).2.1
      (BFItem.mk 0 "c1" (some "2025-02-01") none) (by decide) "2025-01-01" "2025-02-01"
      rfl (by decide) rfl (by decide),
   (C8_end_date_conflict_skipped exBFExtract exBFRows
      (by unfold NodupIds; decide)).2.2
      (BFItem.mk 1 "c2" (some "2025-01-01") none) (by decide) "2025-03-01"
      rfl (by decide)
      (fun s hs hlt => by
        rw [← Option.some.inj hs] at hlt
        exact absurd hlt (by decide))⟩

end Scatter
